import Mathlib

/-!
Shallow embedding of the prover-side sumcheck machinery of the binius
repository: the round-polynomial codec (`RoundCoeffs`, `RoundProof`), the
claim data model (`CompositeSumClaim`, `SumcheckClaim`), the index
composition adapter (`IndexComposition`), the tensor-product query
expansion (`MultilinearQuery`), the witness index
(`MultilinearExtensionIndex`) and the batch orchestrator (`batchProve`),
together with theorems settling the specification claims about them.
-/

namespace Binius

/-! ## Round polynomial codec (sumcheck_v2/common.rs) -/

/-- A univariate polynomial in monomial basis: coefficient `i` is the
coefficient of the term `X^i`.  Embeds `RoundCoeffs<F>`. -/
structure RoundCoeffs (F : Type) where
  coeffs : List F
deriving DecidableEq, Repr

variable {F : Type} [Field F]

/-- Embeds `AddAssign for RoundCoeffs`: the left operand is zero-extended to
the right operand's length when shorter, then added pointwise (entries of the
left operand past the right operand's length are kept). -/
def RoundCoeffs.add (a b : RoundCoeffs F) : RoundCoeffs F :=
  let l :=
    if a.coeffs.length < b.coeffs.length then
      a.coeffs ++ List.replicate (b.coeffs.length - a.coeffs.length) (0 : F)
    else
      a.coeffs
  ⟨(l.zipWith (· + ·) b.coeffs) ++ l.drop b.coeffs.length⟩

/-- Embeds `MulAssign<F> for RoundCoeffs`: every coefficient is multiplied
by the scalar on the right. -/
def RoundCoeffs.scale (a : RoundCoeffs F) (r : F) : RoundCoeffs F :=
  ⟨a.coeffs.map (· * r)⟩

/-- A round proof: a `RoundCoeffs` with its highest-degree coefficient
truncated off.  Embeds `RoundProof<F>`. -/
structure RoundProof (F : Type) where
  inner : RoundCoeffs F
deriving DecidableEq, Repr

/-- Embeds `RoundCoeffs::truncate`: drops the last coefficient
(`saturating_sub` makes the empty list map to the empty list). -/
def RoundCoeffs.truncate (a : RoundCoeffs F) : RoundProof F :=
  ⟨⟨a.coeffs.take (a.coeffs.length - 1)⟩⟩

/-- Embeds `RoundProof::coeffs`. -/
def RoundProof.coeffs (p : RoundProof F) : List F :=
  p.inner.coeffs

/-- Embeds `RoundProof::recover`: the missing top coefficient is
`sum - first - Σ coeffs`, appended to the retained coefficients. -/
def RoundProof.recover (p : RoundProof F) (sum : F) : RoundCoeffs F :=
  let coeffs := p.inner.coeffs
  let first_coeff := coeffs.headD 0
  let last_coeff := sum - first_coeff - coeffs.sum
  ⟨coeffs ++ [last_coeff]⟩

/-- Horner evaluation of a monomial-basis coefficient list at a point. -/
def evalPoly : List F → F → F
  | [], _ => 0
  | a :: as, x => a + x * evalPoly as x

/-! ## Errors -/

/-- Embeds `polynomial::Error` (the variants the embedded code can raise). -/
inductive PolyError where
  | tooManyVariables
  | multilinearQueryFull (max_query_vars : ℕ)
  | incorrectQuerySize (expected : ℕ)
deriving DecidableEq, Repr

/-- Embeds `sumcheck_v2::error::Error` (the variants the embedded code can
raise). -/
inductive SumcheckError where
  | invalidComposition (expected_n_vars : ℕ)
  | claimsOutOfOrder
deriving DecidableEq, Repr

/-- Embeds `witness::Error`. -/
inductive WitnessError where
  | missingWitness (id : ℕ)
  | noExplicitBackingMultilinearExtension (id : ℕ)
  | oracleTowerHeightMismatch (oracle_id oracle_level field_level : ℕ)
deriving DecidableEq, Repr

/-! ## Composition polynomials and the claim data model -/

/-- A composition polynomial, embedding the `CompositionPoly` trait object
by its observable behaviour: the declared number of variables, the degree,
the (fallible) evaluation function, and the binary tower level. -/
structure CompositionPoly (F : Type) where
  n_vars : ℕ
  degree : ℕ
  evaluate : List F → Except PolyError F
  binary_tower_level : ℕ

/-- Embeds `CompositeSumClaim<F, Composition>`. -/
structure CompositeSumClaim (F : Type) where
  composition : CompositionPoly F
  sum : F

/-- Embeds `SumcheckClaim<F, C>`. -/
structure SumcheckClaim (F : Type) where
  n_vars : ℕ
  n_multilinears : ℕ
  composite_sums : List (CompositeSumClaim F)

/-- Embeds `SumcheckClaim::new`: bails with `InvalidComposition` at the
first composite claim whose composition's `n_vars` differs from
`n_multilinears`; otherwise builds the claim. -/
def SumcheckClaim.new (n_vars n_multilinears : ℕ)
    (composite_sums : List (CompositeSumClaim F)) :
    Except SumcheckError (SumcheckClaim F) :=
  match composite_sums.find? (fun c => c.composition.n_vars ≠ n_multilinears) with
  | some _ => .error (.invalidComposition n_multilinears)
  | none => .ok ⟨n_vars, n_multilinears, composite_sums⟩

/-- Embeds the Rust idiom `Iterator::max().unwrap_or(0)`. -/
def listMaxD (l : List ℕ) : ℕ :=
  l.max?.getD 0

/-- Embeds `SumcheckClaim::max_individual_degree`: the maximum of the
compositions' `n_vars` values (`Iterator::max` with `unwrap_or(0)`). -/
def SumcheckClaim.max_individual_degree (c : SumcheckClaim F) : ℕ :=
  listMaxD (c.composite_sums.map (fun cs => cs.composition.n_vars))

/-! ## Index composition adapter (polynomial/composition/index.rs) -/

/-- Embeds `IndexComposition<C, N>`: the outer query arity, the mapping from
inner query positions to outer query positions, and the inner composition. -/
structure IndexComposition (F : Type) where
  n_vars : ℕ
  indices : List ℕ
  composition : CompositionPoly F

/-- Embeds `CompositionPoly::evaluate for IndexComposition`: bails with
`IncorrectQuerySize` unless the query has exactly `n_vars` entries, then
gathers the subquery `query[indices[j]]` and delegates to the inner
composition.  (`query[index]` is rendered as `getD _ 0`; under the
documented invariant `indices[j] < n_vars` the default is never taken.) -/
def IndexComposition.evaluate (ic : IndexComposition F) (query : List F) :
    Except PolyError F :=
  if query.length ≠ ic.n_vars then
    .error (.incorrectQuerySize ic.n_vars)
  else
    ic.composition.evaluate (ic.indices.map (fun index => query.getD index 0))

/-- Embeds `CompositionPoly::degree for IndexComposition`. -/
def IndexComposition.degree (ic : IndexComposition F) : ℕ :=
  ic.composition.degree

/-- Embeds `CompositionPoly::binary_tower_level for IndexComposition`. -/
def IndexComposition.binary_tower_level (ic : IndexComposition F) : ℕ :=
  ic.composition.binary_tower_level

/-! ## Tensor product query expansion (polynomial/multilinear_query.rs)

The packed buffer `Vec<P>` is embedded as a flat scalar list together with
the packing width `W = P::WIDTH`: packed unit `u` holds the scalars at flat
positions `u*W .. u*W + W`.  Lengths counted in packed units in the source
(`expanded_query.len()`, `expanded_query_len`, `new_length`) stay counted in
packed units here; the flat list always has length `units * W`. -/

/-- Embeds `MultilinearQuery<P>` (with `W` the packing width `P::WIDTH`). -/
structure MultilinearQuery (F : Type) (W : ℕ) where
  /-- The flat scalar contents of the packed buffer `expanded_query`. -/
  expanded_query : List F
  /-- Length of the initialized prefix, in packed units. -/
  expanded_query_len : ℕ
  n_vars : ℕ
deriving DecidableEq, Repr

/-- Embeds `MultilinearQuery::new`: out-of-range error above 31 variables,
otherwise a zeroed buffer of `max (2^max_query_vars / W) 1` packed units
whose packed unit 0 is `P::set_single(ONE)` (scalar one at position zero),
with one initialized packed unit and zero folded variables. -/
def MultilinearQuery.new (W : ℕ) (max_query_vars : ℕ) :
    Except PolyError (MultilinearQuery F W) :=
  if max_query_vars > 31 then
    .error .tooManyVariables
  else
    let len := max ((2 ^ max_query_vars) / W) 1
    let zeroed : List F := List.replicate (len * W) 0
    let expanded_query : List F :=
      match zeroed with
      | [] => []
      | _ :: rest => 1 :: rest
    .ok ⟨expanded_query, 1, 0⟩

/-- One folding step of the tensor expansion at a new challenge `r`, with
current live scalar length `2^k`: entry `v` at position `p < 2^k` becomes
`v*(1-r)` at `p` and `v*r` at `p + 2^k`; positions at and beyond `2^(k+1)`
are untouched. -/
def tensorFoldStep (k : ℕ) (r : F) (buf : List F) : List F :=
  ((buf.take (2 ^ k)).map (· * (1 - r)) ++ (buf.take (2 ^ k)).map (· * r))
    ++ buf.drop (2 ^ (k + 1))

/-- Modelled from the spec: `tensor_prod_eq_ind` (crates/core/src/polynomial/
util.rs, not under src/) — "for current folded length 2^k and new challenge
r, for each existing entry v at position p, v·(1-r) remains at p and v·r is
written at p + 2^k — each fold doubles the live prefix length", applied once
per extra query coordinate starting from `log_n_values` folded variables. -/
def tensorProdEqInd (log_n_values : ℕ) (buf : List F) (extra : List F) :
    List F :=
  match extra with
  | [] => buf
  | r :: rest => tensorProdEqInd (log_n_values + 1) (tensorFoldStep log_n_values r buf) rest

/-- Embeds `MultilinearQuery::update`: computes the required packed length
`max (2^new_n_vars / W) 1`, bails with `MultilinearQueryFull` when it
exceeds the allocated packed capacity, and otherwise folds the extra
coordinates into the prefix of that length. -/
def MultilinearQuery.update {W : ℕ} (q : MultilinearQuery F W)
    (extra_query_coordinates : List F) :
    Except PolyError (MultilinearQuery F W) :=
  let old_n_vars := q.n_vars
  let new_n_vars := old_n_vars + extra_query_coordinates.length
  let new_length := max ((2 ^ new_n_vars) / W) 1
  if new_length > q.expanded_query.length / W then
    .error (.multilinearQueryFull old_n_vars)
  else
    .ok ⟨tensorProdEqInd old_n_vars (q.expanded_query.take (new_length * W))
          extra_query_coordinates
          ++ q.expanded_query.drop (new_length * W),
        new_length, new_n_vars⟩

/-- Embeds `MultilinearQuery::expansion`: the initialized prefix of the
buffer (`expanded_query_len` packed units, i.e. `expanded_query_len * W`
scalars). -/
def MultilinearQuery.expansion {W : ℕ} (q : MultilinearQuery F W) : List F :=
  q.expanded_query.take (q.expanded_query_len * W)

/-! ## Witness index (witness.rs) -/

/-- Embeds `MultilinearExtensionBacking`: the raw underlier buffer together
with its tower level.  `U` is the underlier type; `ArcOrRef` ownership is
immaterial to values and is dropped. -/
structure MultilinearExtensionBacking (U : Type) where
  underliers : List U
  tower_level : ℕ
deriving DecidableEq, Repr

/-- Embeds `MultilinearExtensionIndexEntry`: the type-erased polymorphic
handle (abstract type `H`) and the optional raw backing. -/
structure MultilinearExtensionIndexEntry (H U : Type) where
  type_erased : H
  backing : Option (MultilinearExtensionBacking U)

/-- Embeds `MultilinearExtensionIndex`: a sparse registry of entries indexed
by oracle id. -/
structure MultilinearExtensionIndex (H U : Type) where
  entries : List (Option (MultilinearExtensionIndexEntry H U))

/-- Embeds `MultilinearExtensionIndex::get::<FS>` with `fs_level =
FS::TOWER_LEVEL`: missing-witness error when no entry is registered at
`id`, no-explicit-backing error when the entry has no raw backing,
tower-height mismatch when the stored level differs from `fs_level`, and
otherwise the raw underlier buffer viewed at the requested width.
(`MultilinearExtension::from_values_slice` is modelled from the spec —
crates/core/src/polynomial/multilinear_extension.rs is not under src/ — as
the identity view: "On success it returns a borrowed view reinterpreting
the stored raw buffer at the requested field width".) -/
def MultilinearExtensionIndex.get {H U : Type}
    (w : MultilinearExtensionIndex H U) (fs_level : ℕ) (id : ℕ) :
    Except WitnessError (List U) :=
  match w.entries.getD id none with
  | none => .error (.missingWitness id)
  | some entry =>
    match entry.backing with
    | none => .error (.noExplicitBackingMultilinearExtension id)
    | some backing =>
      if backing.tower_level ≠ fs_level then
        .error (.oracleTowerHeightMismatch id backing.tower_level fs_level)
      else
        .ok backing.underliers

/-- Embeds `MultilinearExtensionIndex::get_multilin_poly`: returns the
stored type-erased handle, failing with missing-witness when no entry is
registered at `id`. -/
def MultilinearExtensionIndex.get_multilin_poly {H U : Type}
    (w : MultilinearExtensionIndex H U) (id : ℕ) : Except WitnessError H :=
  match w.entries.getD id none with
  | none => .error (.missingWitness id)
  | some entry => .ok entry.type_erased

/-- Embeds `MultilinearExtensionIndex::has`. -/
def MultilinearExtensionIndex.has {H U : Type}
    (w : MultilinearExtensionIndex H U) (id : ℕ) : Bool :=
  (w.entries.getD id none).isSome

/-- Embeds the registration step shared by the update operations:
`entries.resize_with(id + 1, || None)` when `id >= entries.len()`, followed
by `entries[id] = Some entry`. -/
def setEntry {H U : Type}
    (entries : List (Option (MultilinearExtensionIndexEntry H U))) (id : ℕ)
    (entry : MultilinearExtensionIndexEntry H U) :
    List (Option (MultilinearExtensionIndexEntry H U)) :=
  let grown :=
    if id ≥ entries.length then
      entries ++ List.replicate (id + 1 - entries.length) none
    else
      entries
  grown.set id (some entry)

/-- Embeds `MultilinearExtensionIndex::update_owned::<FS>` with `fs_level =
FS::TOWER_LEVEL` and `mkHandle` standing for
`MultilinearExtension::from_underliers(..).specialize_arc_dyn()` (modelled
from the spec — multilinear_extension.rs is not under src/ — as an abstract
total handle constructor): each `(id, witness)` pair is registered with the
raw buffer retained as backing at level `fs_level`. -/
def MultilinearExtensionIndex.update_owned {H U : Type}
    (w : MultilinearExtensionIndex H U) (fs_level : ℕ)
    (mkHandle : List U → H) (witnesses : List (ℕ × List U)) :
    MultilinearExtensionIndex H U :=
  ⟨witnesses.foldl
    (fun entries (idw : ℕ × List U) =>
      setEntry entries idw.1
        ⟨mkHandle idw.2, some ⟨idw.2, fs_level⟩⟩)
    w.entries⟩

/-- Embeds `MultilinearExtensionIndex::update_multilin_poly`: each
`(id, witness)` pair is registered as a type-erased handle with no raw
backing. -/
def MultilinearExtensionIndex.update_multilin_poly {H U : Type}
    (w : MultilinearExtensionIndex H U) (witnesses : List (ℕ × H)) :
    MultilinearExtensionIndex H U :=
  ⟨witnesses.foldl
    (fun entries (idw : ℕ × H) => setEntry entries idw.1 ⟨idw.2, none⟩)
    w.entries⟩

/-! ## Batch orchestrator (sumcheck_v2/prove/batch_prove.rs)

`batch_prove` is generic over the `SumcheckProver` trait and the challenger.
A trait implementor is embedded by its observable behaviour: its declared
`n_vars`, a (pure) round-message function of the challenges folded so far
and the batch coefficient, and a finish function of the folded challenges;
its mutable state is the list of challenges folded into it.  The challenger
is an arbitrary deterministic state machine given by `sample`/`observe`
state transformers.  The run additionally records a ghost log of the calls
made (transcript interactions and prover calls) and of the activations
(round number, prover index), which the source performs but does not
return. -/

/-- Embeds a `SumcheckProver<F>` trait object (with non-failing methods):
`folded` is the list of challenges folded in so far. -/
structure ProverSt (F : Type) where
  n_vars : ℕ
  executeFn : List F → F → RoundCoeffs F
  finishFn : List F → List F
  folded : List F

/-- Embeds `SumcheckProver::execute` on the embedded prover state. -/
def ProverSt.execute (p : ProverSt F) (batch_coeff : F) : RoundCoeffs F :=
  p.executeFn p.folded batch_coeff

/-- Embeds `SumcheckProver::fold`. -/
def ProverSt.fold (p : ProverSt F) (challenge : F) : ProverSt F :=
  { p with folded := p.folded ++ [challenge] }

/-- Embeds `SumcheckProver::finish`. -/
def ProverSt.finish (p : ProverSt F) : List F :=
  p.finishFn p.folded

/-- Embeds `BatchSumcheckOutput<F>`. -/
structure BatchSumcheckOutput (F : Type) where
  challenges : List F
  multilinear_evals : List (List F)
deriving DecidableEq, Repr

/-- Embeds `Proof<F>` (`Default` is the empty proof). -/
structure Proof (F : Type) where
  rounds : List (RoundProof F)
  multilinear_evals : List (List F)
deriving DecidableEq, Repr

/-- One recorded call of the batch orchestrator: a transcript interaction
(`sample`/`observe`) or a prover call (`execute`/`fold`/`finish`, by prover
index). -/
inductive BEvent (F : Type) where
  | sample (x : F)
  | observe (xs : List F)
  | execCall (i : ℕ)
  | foldCall (i : ℕ)
  | finishCall (i : ℕ)
deriving DecidableEq, Repr

/-- Modelled from the spec: `binius_utils::sorting::is_sorted_ascending`
(crates/utils, not under src/) — a non-strict ascending check over the
iterated values ("sorted by descending n_vars (equivalently, ascending when
reversed)" allows equal values, which activate in the same round). -/
def isSortedAscending : List ℕ → Bool
  | [] => true
  | [_] => true
  | a :: b :: rest => a ≤ b && isSortedAscending (b :: rest)

/-- The mutable state of the `batch_prove` round loop. -/
structure BPState (F C : Type) where
  activeIndex : ℕ
  batchCoeffs : List F
  challenges : List F
  rounds : List (RoundProof F)
  provers : List (ProverSt F)
  chal : C
  events : List (BEvent F)
  activations : List (ℕ × ℕ)

variable {C : Type}

/-- The activation `while` loop of `batch_prove`, with explicit fuel (the
number of provers past `activeIndex` bounds the iteration count): while the
prover at `activeIndex` exists and its `n_vars` equals the current round's
`n_vars`, sample one batch coefficient for it and advance. -/
def activateGo (sample : C → F × C) (nRounds v : ℕ) :
    ℕ → BPState F C → BPState F C
  | 0, st => st
  | fuel + 1, st =>
    match st.provers.get? st.activeIndex with
    | none => st
    | some p =>
      if p.n_vars = v then
        let s := sample st.chal
        activateGo sample nRounds v fuel
          { st with
            chal := s.2
            batchCoeffs := st.batchCoeffs ++ [s.1]
            events := st.events ++ [.sample s.1]
            activations := st.activations ++ [(nRounds - v, st.activeIndex)]
            activeIndex := st.activeIndex + 1 }
      else st

/-- The activation step with the fuel it can never exhaust. -/
def activate (sample : C → F × C) (nRounds v : ℕ) (st : BPState F C) :
    BPState F C :=
  activateGo sample nRounds v (st.provers.length - st.activeIndex) st

/-- The round-message accumulation loop of `batch_prove`: for every active
prover (paired with its batch coefficient), `execute` it, scale the result
by the coefficient and accumulate; each call is recorded. -/
def accumRound (pairs : List (F × ProverSt F)) :
    RoundCoeffs F × List (BEvent F) :=
  (pairs.zip (List.range pairs.length)).foldl
    (fun acc bpi =>
      let prover_coeffs := bpi.1.2.execute bpi.1.1
      (acc.1.add (prover_coeffs.scale bpi.1.1), acc.2 ++ [.execCall bpi.2]))
    (⟨[]⟩, [])

/-- Folds the round challenge into the first `activeIndex` provers
(`provers[..active_index].iter_mut()`). -/
def foldActive (challenge : F) : ℕ → List (ProverSt F) → List (ProverSt F)
  | 0, ps => ps
  | _ + 1, [] => []
  | n + 1, p :: ps => p.fold challenge :: foldActive challenge n ps

/-- The body of one `batch_prove` round with current round arity `v`
(`v = n_rounds - round_no`): activate newly matching provers, accumulate the
round message over the active provers, truncate and observe the round
proof, sample and record the round challenge, and fold it into every active
prover. -/
def processRound (sample : C → F × C) (observe : C → List F → C)
    (nRounds v : ℕ) (st : BPState F C) : BPState F C :=
  let st := activate sample nRounds v st
  let acc := accumRound (st.batchCoeffs.zip (st.provers.take st.activeIndex))
  let round_proof := acc.1.truncate
  let chal1 := observe st.chal round_proof.coeffs
  let s := sample chal1
  { st with
    chal := s.2
    rounds := st.rounds ++ [round_proof]
    challenges := st.challenges ++ [s.1]
    provers := foldActive s.1 st.activeIndex st.provers
    events := st.events ++ acc.2 ++ [.observe round_proof.coeffs, .sample s.1]
      ++ (List.range st.activeIndex).map .foldCall }

/-- The `for round_no in 0..n_rounds` loop, driven by the remaining round
arity `v = n_rounds - round_no`, counting down from `n_rounds` to `1`. -/
def roundsLoop (sample : C → F × C) (observe : C → List F → C)
    (nRounds : ℕ) : ℕ → BPState F C → BPState F C
  | 0, st => st
  | v + 1, st => roundsLoop sample observe nRounds v
      (processRound sample observe nRounds (v + 1) st)

/-- The full result of a `batch_prove` run: the returned value plus the
(ghost) final challenger state, call log and activation log. -/
structure BPResult (F C : Type) where
  result : Except SumcheckError (BatchSumcheckOutput F × Proof F)
  chal : C
  events : List (BEvent F)
  activations : List (ℕ × ℕ)

/-- Embeds `batch_prove`: empty input returns the empty output and default
proof; unsorted input (by non-increasing `n_vars`) bails with
`ClaimsOutOfOrder`; otherwise `max n_vars` rounds are run and every prover
is finished, its evaluations observed, and the output assembled. -/
def batchProve (sample : C → F × C) (observe : C → List F → C)
    (provers : List (ProverSt F)) (chal : C) : BPResult F C :=
  if provers.isEmpty then
    ⟨.ok (⟨[], []⟩, ⟨[], []⟩), chal, [], []⟩
  else if ¬ isSortedAscending ((provers.map ProverSt.n_vars).reverse) then
    ⟨.error .claimsOutOfOrder, chal, [], []⟩
  else
    let nRounds := listMaxD (provers.map ProverSt.n_vars)
    let st := roundsLoop sample observe nRounds nRounds
      ⟨0, [], [], [], provers, chal, [], []⟩
    let multilinear_evals := st.provers.map ProverSt.finish
    let chalFinal := multilinear_evals.foldl observe st.chal
    let events := st.events
      ++ (List.range st.provers.length).map BEvent.finishCall
      ++ multilinear_evals.map BEvent.observe
    ⟨.ok (⟨st.challenges, multilinear_evals⟩, ⟨st.rounds, multilinear_evals⟩),
      chalFinal, events, st.activations⟩

/-! ## Concrete fixtures used by witnesses and counterexamples -/

/-- A trivial composition over `GF(2)` with prescribed `n_vars` and
`degree`, evaluating to the sum of its query when the arity matches. -/
def fixComp (n d : ℕ) : CompositionPoly (ZMod 2) :=
  ⟨n, d, fun q => if q.length = n then .ok q.sum else .error (.incorrectQuerySize n), 0⟩

/-- A concrete index composition: outer arity 3, gathering positions 2, 0
into a 2-ary inner composition. -/
def fixIndexComp : IndexComposition (ZMod 2) :=
  ⟨3, [2, 0], fixComp 2 1⟩

/-- A concrete deterministic challenger over state `ℕ`. -/
def fixSample (n : ℕ) : ZMod 2 × ℕ :=
  ((n : ZMod 2), n + 1)

/-- The concrete challenger's observe operation. -/
def fixObserve (n : ℕ) (_ : List (ZMod 2)) : ℕ :=
  n + 10

/-- A concrete sumcheck prover over `GF(2)` with prescribed arity. -/
def fixProver (v : ℕ) : ProverSt (ZMod 2) :=
  ⟨v, fun _ c => ⟨[c, c + 1]⟩, fun st => st, []⟩

/-! ## Helper lemmas -/

theorem evalPoly_zero (l : List F) : evalPoly l 0 = l.headD 0 := by
  cases l with
  | nil => rfl
  | cons a as => simp [evalPoly]

theorem evalPoly_one (l : List F) : evalPoly l 1 = l.sum := by
  induction l with
  | nil => rfl
  | cons a as ih => simp [evalPoly, ih]

theorem foldl_max_spec (t : List ℕ) (a : ℕ) :
    a ≤ t.foldl max a ∧ (∀ x ∈ t, x ≤ t.foldl max a) ∧
      (t.foldl max a = a ∨ t.foldl max a ∈ t) := by
  induction t generalizing a with
  | nil => simp
  | cons b s ih =>
    obtain ⟨h1, h2, h3⟩ := ih (max a b)
    refine ⟨le_trans (le_max_left a b) h1, ?_, ?_⟩
    · intro x hx
      rcases List.mem_cons.mp hx with rfl | hx
      · exact le_trans (le_max_right a x) h1
      · exact h2 x hx
    · rcases h3 with h3 | h3
      · rcases max_choice a b with hab | hab
        · exact Or.inl (by rw [List.foldl_cons, h3, hab])
        · exact Or.inr (by rw [List.foldl_cons, h3, hab]; exact List.mem_cons_self b s)
      · exact Or.inr (List.mem_cons_of_mem b h3)

theorem le_listMaxD {l : List ℕ} {x : ℕ} (hx : x ∈ l) : x ≤ listMaxD l := by
  cases l with
  | nil => cases hx
  | cons a t =>
    rw [listMaxD, List.max?_cons', Option.getD_some]
    rcases List.mem_cons.mp hx with rfl | hx
    · exact (foldl_max_spec t x).1
    · exact (foldl_max_spec t a).2.1 x hx

theorem listMaxD_mem {l : List ℕ} (h : l ≠ []) : listMaxD l ∈ l := by
  cases l with
  | nil => exact absurd rfl h
  | cons a t =>
    rw [listMaxD, List.max?_cons', Option.getD_some]
    rcases (foldl_max_spec t a).2.2 with h3 | h3
    · rw [h3]; exact List.mem_cons_self a t
    · exact List.mem_cons_of_mem a h3

theorem isSortedAscending_iff_chain (l : List ℕ) :
    isSortedAscending l = true ↔ l.Chain' (· ≤ ·) := by
  induction l with
  | nil => simp [isSortedAscending]
  | cons a t ih =>
    cases t with
    | nil => simp [isSortedAscending]
    | cons b r =>
      rw [isSortedAscending, Bool.and_eq_true, decide_eq_true_iff, ih,
        List.chain'_cons]

theorem isSortedAscending_reverse_iff (ns : List ℕ) :
    isSortedAscending ns.reverse = true ↔ ns.Pairwise (· ≥ ·) := by
  haveI : IsTrans ℕ (flip (· ≤ ·)) := ⟨fun _ _ _ h1 h2 => le_trans h2 h1⟩
  rw [isSortedAscending_iff_chain, List.chain'_reverse,
    List.chain'_iff_pairwise]
  exact Iff.rfl

/-! ## Claim C1: round proof recovery -/

/-- C1 (counterexample): for the empty truncated coefficient list, the
recovered polynomial is the constant `s`, whose evaluation at 0 plus
evaluation at 1 is `2·s`, which differs from `s` whenever `s ≠ 0` — here in
`GF(2)` with claimed sum 1 the recovered polynomial is `[1]` and
`r(0) + r(1) = 0 ≠ 1`.  This refutes the claim's "evaluation at 0 plus
evaluation at 1 equals s ... of any length, including empty". -/
theorem c1_recover_counterexample :
    RoundProof.recover (F := ZMod 2) ⟨⟨[]⟩⟩ 1 = ⟨[1]⟩ ∧
      evalPoly (RoundProof.recover (F := ZMod 2) ⟨⟨[]⟩⟩ 1).coeffs 0 +
        evalPoly (RoundProof.recover (F := ZMod 2) ⟨⟨[]⟩⟩ 1).coeffs 1 ≠ 1 := by
  constructor
  · decide
  · decide

/-- C1 (amended): `recover` is total and always extends the truncated
coefficient list by exactly the top coefficient
`a_d = s - a_0 - Σ_{j<d} a_j` (with `a_0 = 0` for the empty list), and for
every NON-EMPTY truncated coefficient list the recovered polynomial's
evaluation at 0 plus its evaluation at 1 equals `s`; for the empty list
the recovered polynomial is the constant `s` and that sum is `2·s`. -/
theorem c1_recover_spec (p : RoundProof F) (s : F) :
    p.recover s = ⟨p.coeffs ++ [s - p.coeffs.headD 0 - p.coeffs.sum]⟩ ∧
      (p.coeffs ≠ [] →
        evalPoly (p.recover s).coeffs 0 + evalPoly (p.recover s).coeffs 1 = s) ∧
      (p.coeffs = [] →
        evalPoly (p.recover s).coeffs 0 + evalPoly (p.recover s).coeffs 1 = 2 * s) := by
  obtain ⟨⟨l⟩⟩ := p
  refine ⟨rfl, ?_, ?_⟩
  · intro hne
    have hc : (RoundProof.recover ⟨⟨l⟩⟩ s).coeffs
        = l ++ [s - l.headD 0 - l.sum] := rfl
    rw [hc, evalPoly_zero, evalPoly_one]
    cases l with
    | nil => exact absurd rfl hne
    | cons a t => simp; ring
  · intro h
    subst h
    have hc : (RoundProof.recover (⟨⟨[]⟩⟩ : RoundProof F) s).coeffs
        = [s - 0 - 0] := rfl
    rw [hc, evalPoly_zero, evalPoly_one]
    simp
    ring

/-- C1 (witness): the amended theorem applied to the truncated list `[1, 0]`
in `GF(2)` with claimed sum 1. -/
theorem c1_recover_spec_witness :
    RoundProof.recover (F := ZMod 2) ⟨⟨[1, 0]⟩⟩ 1
        = ⟨[1, 0] ++ [1 - ([1, 0] : List (ZMod 2)).headD 0 - ([1, 0] : List (ZMod 2)).sum]⟩ ∧
      evalPoly (RoundProof.recover (F := ZMod 2) ⟨⟨[1, 0]⟩⟩ 1).coeffs 0 +
        evalPoly (RoundProof.recover (F := ZMod 2) ⟨⟨[1, 0]⟩⟩ 1).coeffs 1 = 1 := by
  have h := c1_recover_spec (F := ZMod 2) ⟨⟨[1, 0]⟩⟩ 1
  exact ⟨h.1, h.2.1 (by decide)⟩

/-! ## Claim C9: empty composite claim set -/

/-- C9 (counterexample): constructing a sumcheck claim with an empty
("nullary") set of composite sum claims SUCCEEDS: `SumcheckClaim::new`
only validates the arity of the compositions present, so the empty vector
passes vacuously, contradicting the claim that it fails immediately. -/
theorem c9_new_empty_counterexample :
    SumcheckClaim.new (F := ZMod 2) 3 2 [] = .ok ⟨3, 2, []⟩ :=
  rfl

/-- C9 (amended): `SumcheckClaim::new` applied to an empty composite claim
set succeeds, returning the claim with an empty claim set; in general the
constructor succeeds exactly when every composition's arity equals
`n_multilinears` (vacuously true for the empty set). -/
theorem c9_new_spec (n_vars n_multilinears : ℕ)
    (cs : List (CompositeSumClaim F)) :
    SumcheckClaim.new (F := F) n_vars n_multilinears []
        = .ok ⟨n_vars, n_multilinears, []⟩ ∧
      ((SumcheckClaim.new n_vars n_multilinears cs).isOk
        ↔ ∀ c ∈ cs, c.composition.n_vars = n_multilinears) := by
  refine ⟨rfl, ?_⟩
  rw [SumcheckClaim.new]
  cases hf : cs.find? (fun c => c.composition.n_vars ≠ n_multilinears) with
  | none =>
    simp only [Except.isOk, Except.toBool, true_iff]
    intro c hc
    have := List.find?_eq_none.mp hf c hc
    simpa using this
  | some c =>
    simp only [Except.isOk, Except.toBool, Bool.false_eq_true, false_iff]
    intro hall
    have hmem := List.mem_of_find?_eq_some hf
    have hprop := List.find?_some hf
    rw [decide_eq_true_iff] at hprop
    exact hprop (hall c hmem)

/-- C9 (witness): the amended theorem at concrete inputs: the empty claim
set is accepted, and a singleton claim set is accepted exactly when its
composition's arity matches `n_multilinears`. -/
theorem c9_new_spec_witness :
    SumcheckClaim.new (F := ZMod 2) 4 2 [] = .ok ⟨4, 2, []⟩ ∧
      ((SumcheckClaim.new (F := ZMod 2) 4 2 [⟨fixComp 2 1, 0⟩]).isOk
        ↔ ∀ c ∈ [(⟨fixComp 2 1, 0⟩ : CompositeSumClaim (ZMod 2))],
            c.composition.n_vars = 2) :=
  ⟨(c9_new_spec 4 2 ([] : List (CompositeSumClaim (ZMod 2)))).1,
    (c9_new_spec 4 2 [⟨fixComp 2 1, 0⟩]).2⟩

/-! ## Claim C10: max_individual_degree -/

/-- C10: `max_individual_degree` returns the maximum over the composite sum
claims of the composition's `n_vars` (0 for the empty claim set): it is an
upper bound of the `n_vars` values, is attained by one of them when the
claim set is non-empty, and is invariant under every transformation of the
compositions that preserves `n_vars` (in particular under arbitrary changes
of their `degree`, which it never consults). -/
theorem c10_max_individual_degree_spec (c : SumcheckClaim F) :
    (c.composite_sums = [] → c.max_individual_degree = 0) ∧
      (∀ cs ∈ c.composite_sums,
        cs.composition.n_vars ≤ c.max_individual_degree) ∧
      (c.composite_sums ≠ [] →
        ∃ cs ∈ c.composite_sums,
          c.max_individual_degree = cs.composition.n_vars) ∧
      (∀ f : CompositionPoly F → CompositionPoly F,
        (∀ p, (f p).n_vars = p.n_vars) →
        SumcheckClaim.max_individual_degree
            ⟨c.n_vars, c.n_multilinears,
              c.composite_sums.map (fun cs => ⟨f cs.composition, cs.sum⟩)⟩
          = c.max_individual_degree) := by
  refine ⟨?_, ?_, ?_, ?_⟩
  · intro h
    rw [SumcheckClaim.max_individual_degree, h]
    rfl
  · intro cs hcs
    exact le_listMaxD (List.mem_map_of_mem _ hcs)
  · intro hne
    have hne' : c.composite_sums.map (fun cs => cs.composition.n_vars) ≠ [] := by
      simpa using hne
    have hmem := listMaxD_mem hne'
    rw [List.mem_map] at hmem
    obtain ⟨cs, hcs, heq⟩ := hmem
    exact ⟨cs, hcs, heq.symm⟩
  · intro f hf
    rw [SumcheckClaim.max_individual_degree,
      SumcheckClaim.max_individual_degree, List.map_map]
    congr 1
    apply List.map_congr_left
    intro cs _
    exact hf cs.composition

/-- C10 (witness): the characterization applied to a concrete claim with
compositions of arities 2 and 5 (and degrees 7 and 1): the maximum
individual "degree" is an attained upper bound of the arities — here 5,
the larger `n_vars`, not the larger `degree`. -/
theorem c10_max_individual_degree_witness :
    (∃ cs ∈ ([⟨fixComp 2 7, 0⟩, ⟨fixComp 5 1, 0⟩] :
        List (CompositeSumClaim (ZMod 2))),
      SumcheckClaim.max_individual_degree
          ⟨0, 2, [⟨fixComp 2 7, 0⟩, ⟨fixComp 5 1, 0⟩]⟩ = cs.composition.n_vars) ∧
      SumcheckClaim.max_individual_degree
          (⟨0, 2, [⟨fixComp 2 7, 0⟩, ⟨fixComp 5 1, 0⟩]⟩ :
            SumcheckClaim (ZMod 2)) = 5 := by
  have h := c10_max_individual_degree_spec
    (⟨0, 2, [⟨fixComp 2 7, 0⟩, ⟨fixComp 5 1, 0⟩]⟩ : SumcheckClaim (ZMod 2))
  refine ⟨h.2.2.1 (by simp), rfl⟩

/-! ## Claim C5: index composition adapter -/

/-- C5: under the documented invariants (the index list has exactly the
inner composition's arity, and the inner composition's evaluation succeeds
on every query of its arity), the adapter's evaluation fails with a
size-mismatch error exactly when the outer query's length differs from the
recorded outer `n_vars` (and with that exact error); on a query of the
correct length it equals the inner composition evaluated directly on the
gathered subquery `[query[indices[0]], ...]`; and `degree` and
`binary_tower_level` delegate to the inner composition unchanged. -/
theorem c5_index_composition_spec (ic : IndexComposition F) (query : List F)
    (hind : ic.indices.length = ic.composition.n_vars)
    (hcontract : ∀ q : List F, q.length = ic.composition.n_vars →
      (ic.composition.evaluate q).isOk = true) :
    ((∃ n, ic.evaluate query = .error (.incorrectQuerySize n))
        ↔ query.length ≠ ic.n_vars) ∧
      (query.length ≠ ic.n_vars →
        ic.evaluate query = .error (.incorrectQuerySize ic.n_vars)) ∧
      (query.length = ic.n_vars →
        ic.evaluate query
          = ic.composition.evaluate
              (ic.indices.map (fun index => query.getD index 0))) ∧
      ic.degree = ic.composition.degree ∧
      ic.binary_tower_level = ic.composition.binary_tower_level := by
  refine ⟨⟨?_, ?_⟩, ?_, ?_, rfl, rfl⟩
  · rintro ⟨n, hn⟩ hlen
    rw [IndexComposition.evaluate, if_neg (by simp [hlen])] at hn
    have hok := hcontract (ic.indices.map (fun index => query.getD index 0))
      (by simp [hind])
    rw [hn] at hok
    exact absurd hok (by simp [Except.isOk, Except.toBool])
  · intro hlen
    exact ⟨ic.n_vars, by rw [IndexComposition.evaluate, if_pos hlen]⟩
  · intro hlen
    rw [IndexComposition.evaluate, if_pos hlen]
  · intro hlen
    rw [IndexComposition.evaluate, if_neg (by simp [hlen])]

/-- C5 (witness): the adapter with outer arity 3 and indices `[2, 0]` over
a 2-ary inner composition: a query of length 2 fails with the
size-mismatch error naming 3, and the query `[1, 0, 1]` evaluates to the
inner composition applied to the gathered subquery. -/
theorem c5_index_composition_witness :
    fixIndexComp.evaluate [1, 0] = .error (.incorrectQuerySize 3) ∧
      fixIndexComp.evaluate [1, 0, 1]
        = fixIndexComp.composition.evaluate
            (fixIndexComp.indices.map
              (fun index => ([1, 0, 1] : List (ZMod 2)).getD index 0)) := by
  have h := c5_index_composition_spec fixIndexComp ([1, 0] : List (ZMod 2))
    rfl (fun q hq => by rw [fixIndexComp, fixComp]; simp [hq]; rfl)
  have h3 := c5_index_composition_spec fixIndexComp ([1, 0, 1] : List (ZMod 2))
    rfl (fun q hq => by rw [fixIndexComp, fixComp]; simp [hq]; rfl)
  exact ⟨h.2.1 (by decide), h3.2.2.1 (by decide)⟩

/-! ## Claim C8: batch_prove on an empty collection -/

/-- C8: `batch_prove` applied to an empty collection of provers returns the
empty `BatchSumcheckOutput` (no challenges, no evaluations) and the default
`Proof` (no round proofs, no evaluations), with an empty call log (so no
transcript sample or observe happens) and the challenger state untouched. -/
theorem c8_batch_prove_empty (sample : C → F × C) (observe : C → List F → C)
    (chal : C) :
    batchProve sample observe [] chal
      = ⟨.ok (⟨[], []⟩, ⟨[], []⟩), chal, [], []⟩ :=
  rfl

/-- C8 (witness): the empty-input equation at the concrete challenger over
`GF(2)` with initial state 0. -/
theorem c8_batch_prove_empty_witness :
    batchProve fixSample fixObserve ([] : List (ProverSt (ZMod 2))) 0
      = ⟨.ok (⟨[], []⟩, ⟨[], []⟩), 0, [], []⟩ :=
  c8_batch_prove_empty fixSample fixObserve 0

/-! ## Claim C3: out-of-order provers -/

/-- C3: for every non-empty collection of provers that is not sorted by
non-increasing `n_vars`, `batch_prove` fails with the out-of-order error,
with an empty call log (no transcript interaction and no prover call) and
the challenger state untouched. -/
theorem c3_batch_prove_out_of_order (sample : C → F × C)
    (observe : C → List F → C) (provers : List (ProverSt F)) (chal : C)
    (hne : provers ≠ [])
    (hunsorted : ¬ (provers.map ProverSt.n_vars).Pairwise (· ≥ ·)) :
    batchProve sample observe provers chal
      = ⟨.error .claimsOutOfOrder, chal, [], []⟩ := by
  rw [batchProve]
  rw [if_neg (by simpa using hne)]
  rw [if_pos]
  intro hsorted
  exact hunsorted ((isSortedAscending_reverse_iff _).mp hsorted)

/-- C3 (witness): two provers with arities 1 and 2 in that (ascending,
hence invalid) order are rejected with `ClaimsOutOfOrder`, with no call
recorded and the challenger state 0 unchanged. -/
theorem c3_batch_prove_out_of_order_witness :
    batchProve fixSample fixObserve [fixProver 1, fixProver 2] 0
      = ⟨.error .claimsOutOfOrder, 0, [], []⟩ :=
  c3_batch_prove_out_of_order fixSample fixObserve [fixProver 1, fixProver 2] 0
    (by simp) (by decide)

/-! ## Claim C7: MultilinearQuery::new -/

/-- C7: `new` fails with the out-of-range error exactly when `max_vars`
exceeds 31; otherwise it returns a query over zero variables whose backing
buffer is the zero-initialized buffer of `max (2^max_vars / W) 1` packed
units with the scalar one written at position zero, and whose expansion is
the single packed unit holding the scalar one at position zero. -/
theorem c7_multilinear_query_new_spec (W max_query_vars : ℕ) (hW : 1 ≤ W) :
    (31 < max_query_vars →
      MultilinearQuery.new (F := F) W max_query_vars = .error .tooManyVariables) ∧
      (max_query_vars ≤ 31 →
        MultilinearQuery.new (F := F) W max_query_vars
            = .ok ⟨1 :: List.replicate (max (2 ^ max_query_vars / W) 1 * W - 1) 0,
                1, 0⟩ ∧
          ∀ q : MultilinearQuery F W,
            MultilinearQuery.new (F := F) W max_query_vars = .ok q →
              q.n_vars = 0 ∧
                q.expanded_query.length = max (2 ^ max_query_vars / W) 1 * W ∧
                q.expansion = 1 :: List.replicate (W - 1) (0 : F)) := by
  have hword : 1 ≤ max (2 ^ max_query_vars / W) 1 * W :=
    Nat.one_le_iff_ne_zero.mpr (by positivity)
  have hrepl :
      (List.replicate (max (2 ^ max_query_vars / W) 1 * W) (0 : F))
        = 0 :: List.replicate (max (2 ^ max_query_vars / W) 1 * W - 1) (0 : F) := by
    conv_lhs => rw [show max (2 ^ max_query_vars / W) 1 * W
        = (max (2 ^ max_query_vars / W) 1 * W - 1) + 1 by omega]
    rw [List.replicate_succ]
  constructor
  · intro h
    rw [MultilinearQuery.new, if_pos h]
  · intro h
    have hok : MultilinearQuery.new (F := F) W max_query_vars
        = .ok ⟨1 :: List.replicate (max (2 ^ max_query_vars / W) 1 * W - 1) 0,
            1, 0⟩ := by
      rw [MultilinearQuery.new, if_neg (by omega)]
      simp only [hrepl]
    refine ⟨hok, ?_⟩
    intro q hq
    rw [hok] at hq
    obtain rfl : q = ⟨1 :: List.replicate (max (2 ^ max_query_vars / W) 1 * W - 1) 0,
        1, 0⟩ := by
      cases hq
      rfl
    have hWcap : W ≤ max (2 ^ max_query_vars / W) 1 * W :=
      Nat.le_mul_of_pos_left W (by omega)
    refine ⟨rfl, by simp [List.length_replicate]; omega, ?_⟩
    rw [MultilinearQuery.expansion]
    show List.take (1 * W) _ = _
    rw [show (1 : ℕ) * W = (W - 1) + 1 by omega]
    rw [List.take_succ_cons, List.take_replicate]
    congr 2
    omega

/-- C7 (witness): with packing width 4 over `GF(2)`, `new 32` is rejected
and `new 2` yields the single-packed-unit expansion `(1, 0, 0, 0)` over a
one-unit buffer. -/
theorem c7_multilinear_query_new_witness :
    MultilinearQuery.new (F := ZMod 2) 4 32 = .error .tooManyVariables ∧
      MultilinearQuery.new (F := ZMod 2) 4 2 = .ok ⟨[1, 0, 0, 0], 1, 0⟩ ∧
      (⟨[1, 0, 0, 0], 1, 0⟩ : MultilinearQuery (ZMod 2) 4).expansion
        = [1, 0, 0, 0] := by
  have h32 := c7_multilinear_query_new_spec (F := ZMod 2) 4 32 (by decide)
  have h2 := c7_multilinear_query_new_spec (F := ZMod 2) 4 2 (by decide)
  have hok2 : MultilinearQuery.new (F := ZMod 2) 4 2 = .ok ⟨[1, 0, 0, 0], 1, 0⟩ :=
    ((h2.2 (by decide)).1).trans rfl
  have hq := (h2.2 (by decide)).2 ⟨[1, 0, 0, 0], 1, 0⟩ hok2
  exact ⟨h32.1 (by decide), hok2, hq.2.2.trans (by decide)⟩

/-! ## Claim C4: MultilinearQuery::update capacity -/

theorem pow2_capacity_iff (a b w : ℕ) :
    max (2 ^ a / 2 ^ w) 1 ≤ max (2 ^ b / 2 ^ w) 1
      ↔ 2 ^ a ≤ max (2 ^ b) (2 ^ w) := by
  rcases le_or_lt w a with ha | ha
  · rw [Nat.pow_div ha (by norm_num),
      max_eq_left (Nat.one_le_two_pow)]
    rcases le_or_lt w b with hb | hb
    · rw [Nat.pow_div hb (by norm_num), max_eq_left Nat.one_le_two_pow,
        max_eq_left (Nat.pow_le_pow_right (by norm_num) hb),
        Nat.pow_le_pow_iff_right (by norm_num),
        Nat.pow_le_pow_iff_right (by norm_num)]
      omega
    · have hblt : 2 ^ b < 2 ^ w :=
        Nat.pow_lt_pow_right (by norm_num) hb
      rw [Nat.div_eq_of_lt hblt,
        max_eq_right (Nat.zero_le 1),
        max_eq_right (le_of_lt hblt)]
      constructor
      · intro h1
        have : a - w = 0 := by
          by_contra hne
          have : 2 ^ 1 ≤ 2 ^ (a - w) :=
            Nat.pow_le_pow_right (by norm_num) (by omega)
          omega
        exact Nat.pow_le_pow_right (by norm_num) (by omega)
      · intro h1
        have : a ≤ w := (Nat.pow_le_pow_iff_right (by norm_num)).mp h1
        have : a - w = 0 := by omega
        rw [this]
  · have halt : 2 ^ a < 2 ^ w := Nat.pow_lt_pow_right (by norm_num) ha
    rw [Nat.div_eq_of_lt halt, max_eq_right (Nat.zero_le 1)]
    constructor
    · intro _
      exact le_trans (le_of_lt halt) (le_max_right _ _)
    · intro _
      exact le_max_right _ _

/-- C4 (counterexample): with packing width 4 (one packed unit holds four
scalars), a query constructed with `new(0)` — declared maximum 0 variables,
buffer one packed unit — accepts an update to 2 total variables, because
the capacity check compares packed-unit counts (`max(2^2/4, 1) = 1 ≤ 1`),
not variable counts.  This refutes the claim that every update whose total
variable count exceeds the declared maximum fails. -/
theorem c4_update_counterexample :
    MultilinearQuery.new (F := ZMod 2) 4 0 = .ok ⟨[1, 0, 0, 0], 1, 0⟩ ∧
      ((⟨[1, 0, 0, 0], 1, 0⟩ : MultilinearQuery (ZMod 2) 4).update [1, 1]).isOk
        = true ∧
      (⟨[1, 0, 0, 0], 1, 0⟩ : MultilinearQuery (ZMod 2) 4).n_vars
          + ([1, 1] : List (ZMod 2)).length > 0 := by
  refine ⟨rfl, ?_, by decide⟩
  decide

/-- C4 (amended): for a query whose buffer was allocated for a declared
maximum of `mv` variables at packing width `W = 2^w` (buffer of
`max (2^mv / W) 1` packed units), `update` fails — deterministically, with
the capacity error carrying the current variable count, and without any
observable partial extension (the error is returned instead of a new
query) — exactly when the requested total `2^(n_vars + extra)` scalars
exceed the allocated `max(2^mv, W)` scalar slots.  When `W ≤ 2^mv` (at
least one variable per packed unit, in particular always at packing width
1) this is exactly the claim's condition: the update fails if and only if
the requested total number of variables exceeds the declared maximum. -/
theorem c4_update_capacity_spec (w mv : ℕ) (q : MultilinearQuery F (2 ^ w))
    (extra : List F)
    (hlen : q.expanded_query.length = max (2 ^ mv / 2 ^ w) 1 * 2 ^ w) :
    ((q.update extra).isOk = true
        ↔ 2 ^ (q.n_vars + extra.length) ≤ max (2 ^ mv) (2 ^ w)) ∧
      (∀ e, q.update extra = .error e → e = .multilinearQueryFull q.n_vars) ∧
      (w ≤ mv →
        ((q.update extra).isOk = true ↔ q.n_vars + extra.length ≤ mv)) := by
  have hcap : q.expanded_query.length / 2 ^ w = max (2 ^ mv / 2 ^ w) 1 := by
    rw [hlen]
    exact Nat.mul_div_cancel _ (Nat.pos_pow_of_pos w (by norm_num))
  have hdef : q.update extra
      = if max (2 ^ (q.n_vars + extra.length) / 2 ^ w) 1
            > q.expanded_query.length / 2 ^ w then
          .error (.multilinearQueryFull q.n_vars)
        else
          .ok ⟨tensorProdEqInd q.n_vars
                (q.expanded_query.take (max (2 ^ (q.n_vars + extra.length) / 2 ^ w) 1 * 2 ^ w))
                extra
                ++ q.expanded_query.drop (max (2 ^ (q.n_vars + extra.length) / 2 ^ w) 1 * 2 ^ w),
              max (2 ^ (q.n_vars + extra.length) / 2 ^ w) 1,
              q.n_vars + extra.length⟩ := rfl
  have hiff : (q.update extra).isOk = true
      ↔ 2 ^ (q.n_vars + extra.length) ≤ max (2 ^ mv) (2 ^ w) := by
    rw [hdef, hcap]
    rcases lt_or_le (max (2 ^ mv / 2 ^ w) 1)
        (max (2 ^ (q.n_vars + extra.length) / 2 ^ w) 1) with hgt | hle
    · rw [if_pos hgt]
      simp only [Except.isOk, Except.toBool, Bool.false_eq_true, false_iff]
      intro hcontra
      exact absurd ((pow2_capacity_iff _ mv w).mpr hcontra) (by omega)
    · rw [if_neg (by omega)]
      simp only [Except.isOk, Except.toBool, true_iff]
      exact (pow2_capacity_iff _ mv w).mp hle
  refine ⟨hiff, ?_, ?_⟩
  · intro e he
    rw [hdef] at he
    by_cases hcond : max (2 ^ (q.n_vars + extra.length) / 2 ^ w) 1
        > q.expanded_query.length / 2 ^ w
    · rw [if_pos hcond] at he
      cases he
      rfl
    · rw [if_neg hcond] at he
      cases he
  · intro hwmv
    rw [hiff, max_eq_left (Nat.pow_le_pow_right (by norm_num) hwmv),
      Nat.pow_le_pow_iff_right (by norm_num)]

/-- C4 (witness): at packing width 1 (`w = 0`) with declared maximum 1
variable, the amended theorem instantiates to: updating the fresh query by
two coordinates fails (2 total variables exceed the declared 1). -/
theorem c4_update_capacity_witness :
    (((⟨[1, 0], 1, 0⟩ : MultilinearQuery (ZMod 2) (2 ^ 0)).update [1, 1]).isOk
        = true
      ↔ (⟨[1, 0], 1, 0⟩ : MultilinearQuery (ZMod 2) (2 ^ 0)).n_vars
          + ([1, 1] : List (ZMod 2)).length ≤ 1) ∧
      ¬ (⟨[1, 0], 1, 0⟩ : MultilinearQuery (ZMod 2) (2 ^ 0)).n_vars
          + ([1, 1] : List (ZMod 2)).length ≤ 1 :=
  ⟨(c4_update_capacity_spec 0 1 ⟨[1, 0], 1, 0⟩ [1, 1] (by decide)).2.2
      (by decide),
    by decide⟩

/-! ## Claim C6: witness index lookups -/

theorem setEntry_getD_self {H U : Type}
    (entries : List (Option (MultilinearExtensionIndexEntry H U))) (id : ℕ)
    (e : MultilinearExtensionIndexEntry H U) :
    (setEntry entries id e).getD id none = some e := by
  rw [setEntry]
  by_cases h : id ≥ entries.length
  · rw [if_pos h, List.getD_eq_getElem?_getD,
      List.getElem?_set_self (by simp [List.length_replicate]; omega)]
    rfl
  · rw [if_neg h, List.getD_eq_getElem?_getD,
      List.getElem?_set_self (by omega)]
    rfl

/-- C6: `get` at field tower level `fs'` fails with the missing-witness
error when no entry is registered at `id`; after registering a type-erased
handle via `update_multilin_poly` it fails with the no-explicit-backing
error; after registering a raw buffer via `update_owned` at level `fs` it
fails with the tower-height mismatch error (naming the stored and requested
levels) when `fs' ≠ fs`, and returns exactly the registered raw values when
`fs' = fs` (the round trip at the matching field width). -/
theorem c6_witness_index_spec {H U : Type}
    (widx : MultilinearExtensionIndex H U) (id fs fs' : ℕ) (h : H)
    (buf : List U) (mk : List U → H) :
    (widx.has id = false → widx.get fs id = .error (.missingWitness id)) ∧
      ((widx.update_multilin_poly [(id, h)]).get fs id
        = .error (.noExplicitBackingMultilinearExtension id)) ∧
      (fs' ≠ fs → (widx.update_owned fs mk [(id, buf)]).get fs' id
        = .error (.oracleTowerHeightMismatch id fs fs')) ∧
      (widx.update_owned fs mk [(id, buf)]).get fs id = .ok buf := by
  refine ⟨?_, ?_, ?_, ?_⟩
  · intro hmiss
    rw [MultilinearExtensionIndex.has] at hmiss
    cases hopt : widx.entries.getD id none with
    | none => rw [MultilinearExtensionIndex.get, hopt]
    | some e => rw [hopt] at hmiss; simp at hmiss
  · rw [MultilinearExtensionIndex.get]
    have : (widx.update_multilin_poly [(id, h)]).entries.getD id none
        = some ⟨h, none⟩ := by
      rw [MultilinearExtensionIndex.update_multilin_poly, List.foldl_cons,
        List.foldl_nil]
      exact setEntry_getD_self _ _ _
    rw [this]
  · intro hne
    rw [MultilinearExtensionIndex.get]
    have : (widx.update_owned fs mk [(id, buf)]).entries.getD id none
        = some ⟨mk buf, some ⟨buf, fs⟩⟩ := by
      rw [MultilinearExtensionIndex.update_owned, List.foldl_cons,
        List.foldl_nil]
      exact setEntry_getD_self _ _ _
    rw [this]
    simp only [if_pos (Ne.symm hne)]
  · rw [MultilinearExtensionIndex.get]
    have : (widx.update_owned fs mk [(id, buf)]).entries.getD id none
        = some ⟨mk buf, some ⟨buf, fs⟩⟩ := by
      rw [MultilinearExtensionIndex.update_owned, List.foldl_cons,
        List.foldl_nil]
      exact setEntry_getD_self _ _ _
    rw [this]
    simp

/-- C6 (witness): over an empty index with handle type `ℕ` and raw values
in `GF(2)`: oracle 3 is missing; after registering a bare handle at 3,
`get` reports no explicit backing; after registering the raw buffer
`[1, 0]` at tower level 0, `get` at level 1 reports the mismatch and `get`
at level 0 returns `[1, 0]`. -/
theorem c6_witness_index_witness :
    (MultilinearExtensionIndex.get (H := ℕ) (U := ZMod 2) ⟨[]⟩ 0 3
        = .error (.missingWitness 3)) ∧
      ((MultilinearExtensionIndex.update_multilin_poly (U := ZMod 2) ⟨[]⟩
          [(3, 7)]).get 0 3
        = .error (.noExplicitBackingMultilinearExtension 3)) ∧
      ((MultilinearExtensionIndex.update_owned (H := ℕ) (U := ZMod 2) ⟨[]⟩ 0
          (fun _ => 7) [(3, [1, 0])]).get 1 3
        = .error (.oracleTowerHeightMismatch 3 0 1)) ∧
      (MultilinearExtensionIndex.update_owned (H := ℕ) (U := ZMod 2) ⟨[]⟩ 0
          (fun _ => 7) [(3, [1, 0])]).get 0 3 = .ok [1, 0] := by
  have hmain := c6_witness_index_spec (H := ℕ) (U := ZMod 2) ⟨[]⟩ 3 0 1 7
    [1, 0] (fun _ => 7)
  exact ⟨hmain.1 rfl, hmain.2.1, hmain.2.2.1 (by decide), hmain.2.2.2⟩

/-! ## Claim C2: batch_prove round count and activation schedule -/

theorem foldActive_map_n_vars (c : F) :
    ∀ (n : ℕ) (ps : List (ProverSt F)),
      (foldActive c n ps).map ProverSt.n_vars = ps.map ProverSt.n_vars := by
  intro n
  induction n with
  | zero => intro ps; rfl
  | succ m ih =>
    intro ps
    cases ps with
    | nil => rfl
    | cons p rest =>
      show (p.fold c :: foldActive c m rest).map ProverSt.n_vars = _
      rw [List.map_cons, List.map_cons, ih]
      rfl

theorem takeWhile_eq_nil_of_all (p : ℕ → Bool) (l : List ℕ)
    (h : ∀ x ∈ l, p x = false) : l.takeWhile p = [] := by
  cases l with
  | nil => rfl
  | cons a t =>
    exact List.takeWhile_cons_of_neg
      (by rw [h a (List.mem_cons_self a t)]; exact Bool.false_ne_true)

theorem takeWhile_eq_self_of_all (p : ℕ → Bool) (l : List ℕ)
    (h : ∀ x ∈ l, p x = true) : l.takeWhile p = l := by
  induction l with
  | nil => rfl
  | cons a t ih =>
    rw [List.takeWhile_cons_of_pos (h a (List.mem_cons_self a t)),
      ih (fun x hx => h x (List.mem_cons_of_mem a hx))]

theorem activateGo_spec (sample : C → F × C) (nRounds v : ℕ) :
    ∀ (fuel : ℕ) (st : BPState F C),
      ((st.provers.drop st.activeIndex).takeWhile
          (fun p => decide (p.n_vars = v))).length ≤ fuel →
      (activateGo sample nRounds v fuel st).activeIndex
          = st.activeIndex
            + ((st.provers.drop st.activeIndex).takeWhile
                (fun p => decide (p.n_vars = v))).length ∧
        (activateGo sample nRounds v fuel st).provers = st.provers ∧
        (activateGo sample nRounds v fuel st).challenges = st.challenges ∧
        (activateGo sample nRounds v fuel st).rounds = st.rounds ∧
        (activateGo sample nRounds v fuel st).batchCoeffs.length
          = st.batchCoeffs.length
            + ((st.provers.drop st.activeIndex).takeWhile
                (fun p => decide (p.n_vars = v))).length ∧
        (activateGo sample nRounds v fuel st).activations
          = st.activations
            ++ (List.range
                  ((st.provers.drop st.activeIndex).takeWhile
                    (fun p => decide (p.n_vars = v))).length).map
                (fun j => (nRounds - v, st.activeIndex + j)) := by
  intro fuel
  induction fuel with
  | zero =>
    intro st hfuel
    rw [Nat.le_zero] at hfuel
    rw [activateGo, hfuel]
    simp
  | succ m ih =>
    rintro ⟨ai, bc, ch, rd, pv, cl, ev, ac⟩ hfuel
    dsimp only at hfuel ⊢
    rw [activateGo]
    cases hget : pv.get? ai with
    | none =>
      have hdrop : pv.drop ai = [] :=
        List.drop_eq_nil_of_le (List.get?_eq_none.mp hget)
      dsimp only
      rw [hdrop]
      simp
    | some p =>
      obtain ⟨hlt, heq⟩ := List.get?_eq_some.mp hget
      have hp : pv[ai] = p := by simpa using heq
      have hdrop : pv.drop ai = p :: pv.drop (ai + 1) := by
        rw [List.drop_eq_getElem_cons hlt, hp]
      dsimp only
      by_cases hv : p.n_vars = v
      · rw [if_pos hv, hdrop, List.takeWhile_cons_of_pos (by simpa using hv)]
        have hfuel' :
            ((pv.drop (ai + 1)).takeWhile
              (fun p => decide (p.n_vars = v))).length ≤ m := by
          rw [hdrop, List.takeWhile_cons_of_pos (by simpa using hv)] at hfuel
          rw [List.length_cons] at hfuel
          omega
        obtain ⟨h1, h2, h3, h4, h5, h6⟩ := ih
          ⟨ai + 1, bc ++ [(sample cl).1], ch, rd, pv, (sample cl).2,
            ev ++ [.sample (sample cl).1], ac ++ [(nRounds - v, ai)]⟩
          (by dsimp only; exact hfuel')
        dsimp only at h1 h2 h3 h4 h5 h6
        refine ⟨?_, ?_, ?_, ?_, ?_, ?_⟩
        · rw [h1, List.length_cons]
          omega
        · rw [h2]
        · rw [h3]
        · rw [h4]
        · rw [h5, List.length_cons]
          simp only [List.length_append, List.length_singleton]
          omega
        · rw [h6, List.length_cons, List.append_assoc,
            List.range_succ_eq_map, List.map_cons, List.map_map,
            List.singleton_append]
          congr 1
          congr 1
          apply List.map_congr_left
          intro a _
          simp only [Function.comp_apply]
          congr 1
          omega
      · rw [if_neg hv, hdrop,
          List.takeWhile_cons_of_neg (by simpa using hv)]
        simp

theorem processRound_spec (sample : C → F × C) (observe : C → List F → C)
    (nRounds v : ℕ) (st : BPState F C) :
    (processRound sample observe nRounds v st).activeIndex
        = st.activeIndex
          + ((st.provers.drop st.activeIndex).takeWhile
              (fun p => decide (p.n_vars = v))).length ∧
      (processRound sample observe nRounds v st).provers.map ProverSt.n_vars
        = st.provers.map ProverSt.n_vars ∧
      (processRound sample observe nRounds v st).challenges.length
        = st.challenges.length + 1 ∧
      (processRound sample observe nRounds v st).rounds.length
        = st.rounds.length + 1 ∧
      (processRound sample observe nRounds v st).activations
        = st.activations
          ++ (List.range
                ((st.provers.drop st.activeIndex).takeWhile
                  (fun p => decide (p.n_vars = v))).length).map
              (fun j => (nRounds - v, st.activeIndex + j)) := by
  have hfuel : ((st.provers.drop st.activeIndex).takeWhile
      (fun p => decide (p.n_vars = v))).length
        ≤ st.provers.length - st.activeIndex := by
    have h := ( List.takeWhile_prefix
      (l := st.provers.drop st.activeIndex)
      (fun p => decide (p.n_vars = v))).length_le
    simpa using h
  obtain ⟨h1, h2, h3, h4, h5, h6⟩ :=
    activateGo_spec sample nRounds v (st.provers.length - st.activeIndex) st hfuel
  refine ⟨?_, ?_, ?_, ?_, ?_⟩
  · exact h1
  · show (foldActive _ _
        (activateGo sample nRounds v (st.provers.length - st.activeIndex) st).provers).map
          ProverSt.n_vars = _
    rw [foldActive_map_n_vars, h2]
  · show ((activateGo sample nRounds v (st.provers.length - st.activeIndex) st).challenges
        ++ [_]).length = _
    rw [List.length_append, h3, List.length_singleton]
  · show ((activateGo sample nRounds v (st.provers.length - st.activeIndex) st).rounds
        ++ [_]).length = _
    rw [List.length_append, h4, List.length_singleton]
  · exact h6

theorem takeWhile_pred_congr (v : ℕ) :
    ∀ l : List ℕ, (∀ m ∈ l, m ≤ v + 1) →
      l.takeWhile (fun m => decide (v < m))
        = l.takeWhile (fun m => decide (m = v + 1)) := by
  intro l
  induction l with
  | nil => intro _; rfl
  | cons m rest ih =>
    intro hall
    have hm : m ≤ v + 1 := hall m (List.mem_cons_self m rest)
    by_cases hv : v < m
    · have hm' : m = v + 1 := by omega
      rw [List.takeWhile_cons_of_pos (by simpa using hv),
        List.takeWhile_cons_of_pos (by simpa using hm'),
        ih (fun x hx => hall x (List.mem_cons_of_mem m hx))]
    · have hm' : ¬ m = v + 1 := by omega
      rw [List.takeWhile_cons_of_neg (by simpa using hv),
        List.takeWhile_cons_of_neg (by simpa using hm')]

theorem sorted_takeWhile_split (v : ℕ) :
    ∀ ns : List ℕ, ns.Pairwise (· ≥ ·) →
      ns.takeWhile (fun n => decide (v < n))
        = ns.takeWhile (fun n => decide (v + 1 < n))
          ++ (ns.drop
              (ns.takeWhile (fun n => decide (v + 1 < n))).length).takeWhile
            (fun n => decide (n = v + 1)) := by
  intro ns
  induction ns with
  | nil => intro _; rfl
  | cons n rest ih =>
    intro hs
    rw [List.pairwise_cons] at hs
    obtain ⟨hn, hrest⟩ := hs
    by_cases h2 : v + 1 < n
    · rw [List.takeWhile_cons_of_pos (p := fun n => decide (v < n))
          (by simp; omega),
        List.takeWhile_cons_of_pos (by simpa using h2),
        List.length_cons, List.drop_succ_cons, List.cons_append]
      rw [ih hrest]
    · by_cases h3 : n = v + 1
      · rw [List.takeWhile_cons_of_pos (p := fun n => decide (v < n))
            (by simp; omega),
          List.takeWhile_cons_of_neg (by simpa using h2)]
        simp only [List.length_nil, List.drop_zero, List.nil_append]
        rw [List.takeWhile_cons_of_pos (by simpa using h3)]
        congr 1
        exact takeWhile_pred_congr v rest
          (fun m hm => by have := hn m hm; omega)
      · rw [List.takeWhile_cons_of_neg (p := fun n => decide (v < n))
            (by simp; omega),
          List.takeWhile_cons_of_neg (by simpa using h2)]
        simp only [List.length_nil, List.drop_zero, List.nil_append]
        rw [List.takeWhile_cons_of_neg (by simpa using h3)]

theorem getD_takeWhile_eq (w : ℕ) (ns : List ℕ) (a j : ℕ)
    (hj : j < ((ns.drop a).takeWhile (fun n => decide (n = w))).length) :
    ns.getD (a + j) 0 = w := by
  obtain ⟨s, hs⟩ := List.takeWhile_prefix
    (l := ns.drop a) (fun n => decide (n = w))
  have h1 : ns.getD (a + j) 0 = (ns.drop a).getD j 0 := by
    rw [List.getD_eq_getElem?_getD, List.getD_eq_getElem?_getD,
      List.getElem?_drop]
  have h2 : (ns.drop a).getD j 0
      = ((ns.drop a).takeWhile (fun n => decide (n = w))).getD j 0 := by
    conv_lhs => rw [← hs]
    rw [List.getD_eq_getElem?_getD, List.getD_eq_getElem?_getD,
      List.getElem?_append_left hj]
  have h3 : ((ns.drop a).takeWhile (fun n => decide (n = w))).getD j 0
      = ((ns.drop a).takeWhile (fun n => decide (n = w)))[j] := by
    rw [List.getD_eq_getElem?_getD, List.getElem?_eq_getElem hj]
    rfl
  have h4 := List.mem_takeWhile_imp
    (List.getElem_mem (l := (ns.drop a).takeWhile (fun n => decide (n = w)))
      (n := j) hj)
  rw [decide_eq_true_iff] at h4
  rw [h1, h2, h3, h4]

theorem roundsLoop_spec (sample : C → F × C) (observe : C → List F → C)
    (nRounds : ℕ) (ns : List ℕ) (hsorted : ns.Pairwise (· ≥ ·)) :
    ∀ (v : ℕ) (st : BPState F C),
      st.provers.map ProverSt.n_vars = ns →
      st.activeIndex = (ns.takeWhile (fun n => decide (v < n))).length →
      st.activations = (List.range st.activeIndex).map
          (fun i => (nRounds - ns.getD i 0, i)) →
      (roundsLoop sample observe nRounds v st).provers.map ProverSt.n_vars
          = ns ∧
        (roundsLoop sample observe nRounds v st).challenges.length
          = st.challenges.length + v ∧
        (roundsLoop sample observe nRounds v st).rounds.length
          = st.rounds.length + v ∧
        (roundsLoop sample observe nRounds v st).activeIndex
          = (ns.takeWhile (fun n => decide (0 < n))).length ∧
        (roundsLoop sample observe nRounds v st).activations
          = (List.range (ns.takeWhile (fun n => decide (0 < n))).length).map
              (fun i => (nRounds - ns.getD i 0, i)) := by
  intro v
  induction v with
  | zero =>
    intro st hmap hai hact
    refine ⟨hmap, rfl, rfl, ?_, ?_⟩
    · rw [roundsLoop, hai]
    · rw [roundsLoop, hact, hai]
  | succ v ih =>
    intro st hmap hai hact
    obtain ⟨p1, p2, p3, p4, p5⟩ :=
      processRound_spec sample observe nRounds (v + 1) st
    have hdropmap : ns.drop st.activeIndex
        = (st.provers.drop st.activeIndex).map ProverSt.n_vars := by
      rw [← hmap, List.map_drop]
    have htw : (ns.drop st.activeIndex).takeWhile
          (fun n => decide (n = v + 1))
        = ((st.provers.drop st.activeIndex).takeWhile
            (fun p => decide (p.n_vars = v + 1))).map ProverSt.n_vars := by
      rw [hdropmap, List.takeWhile_map]
      rfl
    have hk : ((st.provers.drop st.activeIndex).takeWhile
          (fun p => decide (p.n_vars = v + 1))).length
        = ((ns.drop st.activeIndex).takeWhile
            (fun n => decide (n = v + 1))).length := by
      rw [htw, List.length_map]
    have hsplit := sorted_takeWhile_split v ns hsorted
    have hAv : (ns.takeWhile (fun n => decide (v < n))).length
        = st.activeIndex
          + ((st.provers.drop st.activeIndex).takeWhile
              (fun p => decide (p.n_vars = v + 1))).length := by
      rw [hsplit, List.length_append, hk, hai]
    have hai' : (processRound sample observe nRounds (v + 1) st).activeIndex
        = (ns.takeWhile (fun n => decide (v < n))).length := by
      rw [p1, hAv]
    have hact' : (processRound sample observe nRounds (v + 1) st).activations
        = (List.range
              (processRound sample observe nRounds (v + 1) st).activeIndex).map
            (fun i => (nRounds - ns.getD i 0, i)) := by
      rw [p5, hact, hai', hAv, List.range_add, List.map_append, List.map_map]
      congr 1
      apply List.map_congr_left
      intro j hj
      rw [List.mem_range] at hj
      rw [hk] at hj
      show (nRounds - (v + 1), st.activeIndex + j)
        = (nRounds - ns.getD (st.activeIndex + j) 0, st.activeIndex + j)
      rw [getD_takeWhile_eq (v + 1) ns st.activeIndex j hj]
    obtain ⟨g1, g2, g3, g4, g5⟩ := ih
      (processRound sample observe nRounds (v + 1) st)
      (by rw [p2, hmap]) hai' hact'
    rw [roundsLoop]
    refine ⟨g1, ?_, ?_, g4, g5⟩
    · rw [g2, p3]
      omega
    · rw [g3, p4]
      omega

/-- C2 (counterexample): a prover whose `n_vars` is 0 is NEVER activated:
with provers of arities 1 and 0 (non-empty, sorted by non-increasing
`n_vars`), the run performs exactly one round and its activation log is
`[(0, 0)]` — the prover at index 1 receives no batch coefficient at any
round, because no round `round_no` satisfies `max - round_no = 0`.  This
refutes the claim that every prover is activated exactly once. -/
theorem c2_batch_prove_counterexample :
    ([fixProver 1, fixProver 0] : List (ProverSt (ZMod 2))) ≠ [] ∧
      (([fixProver 1, fixProver 0] : List (ProverSt (ZMod 2))).map
        ProverSt.n_vars).Pairwise (· ≥ ·) ∧
      (batchProve fixSample fixObserve [fixProver 1, fixProver 0] 0).activations
        = [(0, 0)] ∧
      ((batchProve fixSample fixObserve
          [fixProver 1, fixProver 0] 0).activations.filter
        (fun e => e.2 == 1)).length = 0 := by
  refine ⟨by simp, by decide, by decide, by decide⟩

/-- C2 (amended): for every non-empty collection of provers sorted by
non-increasing `n_vars` in which every prover has at least one variable,
`batch_prove` succeeds, runs exactly `max(n_vars)` rounds — the returned
challenge list and round-proof list both have that length — and its
activation log (one batch coefficient sampled per entry) contains exactly
one entry per prover, in input order, at exactly the round `round_no` with
`max(n_vars) - round_no` equal to that prover's `n_vars`.  (Provers with
`n_vars = 0` are excluded: they are never activated.) -/
theorem c2_batch_prove_spec (sample : C → F × C) (observe : C → List F → C)
    (provers : List (ProverSt F)) (chal : C)
    (hne : provers ≠ [])
    (hsorted : (provers.map ProverSt.n_vars).Pairwise (· ≥ ·))
    (hpos : ∀ p ∈ provers, 1 ≤ p.n_vars) :
    (∃ output proof,
      (batchProve sample observe provers chal).result = .ok (output, proof) ∧
        output.challenges.length = listMaxD (provers.map ProverSt.n_vars) ∧
        proof.rounds.length = listMaxD (provers.map ProverSt.n_vars)) ∧
      (batchProve sample observe provers chal).activations
        = (List.range provers.length).map
            (fun i => (listMaxD (provers.map ProverSt.n_vars)
                - (provers.map ProverSt.n_vars).getD i 0, i)) := by
  have hempty : provers.isEmpty = false := by
    cases provers with
    | nil => exact absurd rfl hne
    | cons p rest => rfl
  have hsortb :
      isSortedAscending ((provers.map ProverSt.n_vars).reverse) = true :=
    (isSortedAscending_reverse_iff _).mpr hsorted
  obtain ⟨g1, g2, g3, g4, g5⟩ := roundsLoop_spec sample observe
    (listMaxD (provers.map ProverSt.n_vars)) (provers.map ProverSt.n_vars)
    hsorted (listMaxD (provers.map ProverSt.n_vars))
    ⟨0, [], [], [], provers, chal, [], []⟩
    rfl
    (by
      rw [takeWhile_eq_nil_of_all _ _
        (fun x hx => by
          simp only [decide_eq_false_iff_not, not_lt]
          exact le_listMaxD hx)]
      rfl)
    rfl
  have hfull : ((provers.map ProverSt.n_vars).takeWhile
        (fun n => decide (0 < n))).length
      = provers.length := by
    rw [takeWhile_eq_self_of_all _ _
      (fun x hx => by
        rw [List.mem_map] at hx
        obtain ⟨p, hp, rfl⟩ := hx
        simpa using hpos p hp)]
    exact List.length_map _ _
  rw [batchProve, if_neg (by simp [hempty]), if_neg (by simp [hsortb])]
  dsimp only
  constructor
  · refine ⟨_, _, rfl, ?_, ?_⟩
    · rw [g2]
      simp
    · rw [g3]
      simp
  · rw [g5, hfull]

/-- C2 (witness): two provers with arities 2 and 1: the run succeeds with
2 challenges and 2 round proofs, and the activation log is
`[(0, 0), (1, 1)]` — the arity-2 prover activates at round 0, the arity-1
prover at round 1. -/
theorem c2_batch_prove_witness :
    (∃ output proof,
      (batchProve fixSample fixObserve [fixProver 2, fixProver 1] 0).result
          = .ok (output, proof) ∧
        output.challenges.length
          = listMaxD ([fixProver 2, fixProver 1].map ProverSt.n_vars) ∧
        proof.rounds.length
          = listMaxD ([fixProver 2, fixProver 1].map ProverSt.n_vars)) ∧
      (batchProve fixSample fixObserve
          [fixProver 2, fixProver 1] 0).activations
        = (List.range ([fixProver 2, fixProver 1] :
              List (ProverSt (ZMod 2))).length).map
            (fun i => (listMaxD ([fixProver 2, fixProver 1].map
                ProverSt.n_vars)
              - ([fixProver 2, fixProver 1].map ProverSt.n_vars).getD i 0,
              i)) :=
  c2_batch_prove_spec fixSample fixObserve [fixProver 2, fixProver 1] 0
    (by simp) (by decide)
    (by
      intro p hp
      rcases List.mem_cons.mp hp with rfl | hp
      · exact le_refl 1 |>.trans (by decide)
      · rcases List.mem_cons.mp hp with rfl | hp
        · exact le_refl 1
        · cases hp)

end Binius
